import Mathlib

/-!
Shallow embedding of `api/ask.js` (fusion-agent-engine): a serverless handler
that fans a query out to per-domain web channels, normalizes each fetched body
to text, scores and ranks the channel results, and fuses the top results into
a structured answer payload.

Modelling conventions:
* JS strings are modelled as Lean `String`, with all character-level work done
  on `List Char` (`.toList` / `String.mk`) so every definition is executable.
* The network and the HTML parsing engine (JSDOM) are external collaborators:
  a fetch outcome is an explicit `FetchResult` input, and the HTML parser is a
  parameter `parse : String → Option String` (`some text` = a successful parse
  yielding the document body's text content, `none` = a parse exception).
* JS numbers used here are exact small rationals, modelled as `Rat`;
  `Math.round` is modelled as `jsRound`.
* JS falsiness of `""`, `0`, `null`/`undefined` is modelled explicitly at each
  use site (`Option`, `if s = ""`, `if n = 0`).
-/

namespace FusionAsk

/-! ### Whitespace and elementary JS string operations -/

/-- The character class of the JS regex `\s` (whitespace). -/
def isWS (c : Char) : Bool :=
  c = ' ' || c = '\t' || c = '\n' || c = '\r' ||
  c.toNat = 11 || c.toNat = 12 || c.toNat = 160 || c.toNat = 0x1680 ||
  (0x2000 ≤ c.toNat && c.toNat ≤ 0x200A) || c.toNat = 0x2028 || c.toNat = 0x2029 ||
  c.toNat = 0x202F || c.toNat = 0x205F || c.toNat = 0x3000 || c.toNat = 0xFEFF

/-- `replace(/\s+/g, rep)`: every maximal run of whitespace becomes the single
character `rep`. The boolean argument records whether we are inside a run. -/
def replaceWSRunsAux (rep : Char) : List Char → Bool → List Char
  | [], _ => []
  | c :: cs, inRun =>
    if isWS c then
      if inRun then replaceWSRunsAux rep cs true
      else rep :: replaceWSRunsAux rep cs true
    else c :: replaceWSRunsAux rep cs false

def replaceWSRuns (rep : Char) (l : List Char) : List Char :=
  replaceWSRunsAux rep l false

/-- JS `String.prototype.trim`: strip leading and trailing whitespace. -/
def trimWS (l : List Char) : List Char :=
  ((l.dropWhile isWS).reverse.dropWhile isWS).reverse

/-- `.replace(/\s+/g, " ").trim()` -/
def normWS (s : String) : String :=
  String.mk (trimWS (replaceWSRuns ' ' s.toList))

/-- JS `s.trim()` on its own (used on the key-finding segments). -/
def jsTrim (s : String) : String :=
  String.mk (trimWS s.toList)

/-- JS `s.slice(0, n)` for `n ≥ 0`. -/
def jsSlice (s : String) (n : Nat) : String :=
  String.mk (s.toList.take n)

/-- JS `s.toLowerCase()` (basic per-character lowering). -/
def jsToLower (s : String) : String :=
  String.mk (s.toList.map Char.toLower)

/-- JS `s.split(sep)` for a single-character separator. -/
def splitOnCh (sep : Char) : List Char → List (List Char)
  | [] => [[]]
  | c :: t =>
    if c = sep then [] :: splitOnCh sep t
    else
      match splitOnCh sep t with
      | [] => [[c]]
      | h :: t2 => (c :: h) :: t2

/-- Does `hay` start with `needle`? -/
def startsWithL : List Char → List Char → Bool
  | [], _ => true
  | _ :: _, [] => false
  | a :: as, b :: bs => (a = b) && startsWithL as bs

/-- Does `hay` contain `needle` as a contiguous substring? -/
def hasSubL (needle : List Char) : List Char → Bool
  | [] => startsWithL needle []
  | c :: t => startsWithL needle (c :: t) || hasSubL needle t

/-- JS `s.includes(sub)`. -/
def jsIncludes (s sub : String) : Bool :=
  hasSubL sub.toList s.toList

/-- JS `Array.prototype.join(sep)`. -/
def joinSep (sep : String) : List String → String
  | [] => ""
  | [s] => s
  | s :: rest => s ++ sep ++ joinSep sep rest

/-- JS `arr.map((x, i) => f i x)`, carrying the running index. -/
def mapWithIdx {α β : Type} (f : Nat → α → β) : List α → Nat → List β
  | [], _ => []
  | a :: t, i => f i a :: mapWithIdx f t (i + 1)

/-- JS `Math.round` (round half toward +∞). -/
def jsRound (x : Rat) : Int :=
  ⌊x + 1/2⌋

/-! ### encodeURIComponent -/

def hexDigit (n : Nat) : Char :=
  if n < 10 then Char.ofNat (48 + n) else Char.ofNat (55 + n)

def percentByte (b : Nat) : List Char :=
  ['%', hexDigit (b / 16), hexDigit (b % 16)]

/-- UTF-8 bytes of one character (as `Nat`s). -/
def utf8Bytes (c : Char) : List Nat :=
  let n := c.toNat
  if n < 0x80 then [n]
  else if n < 0x800 then [0xC0 + n / 0x40, 0x80 + n % 0x40]
  else if n < 0x10000 then [0xE0 + n / 0x1000, 0x80 + (n / 0x40) % 0x40, 0x80 + n % 0x40]
  else [0xF0 + n / 0x40000, 0x80 + (n / 0x1000) % 0x40, 0x80 + (n / 0x40) % 0x40, 0x80 + n % 0x40]

/-- The characters `encodeURIComponent` leaves unescaped. -/
def uriUnreserved (c : Char) : Bool :=
  c.isAlpha || c.isDigit || "-_.!~*()".toList.contains c || c = Char.ofNat 39

def encodeURIComponent (s : String) : String :=
  String.mk (s.toList.flatMap fun c =>
    if uriUnreserved c then [c] else (utf8Bytes c).flatMap percentByte)

/-! ### TextNormalizer (`cleanText`) -/

/-- `html.replace(/<[^>]*>/g, "")` helper: consume characters up to and
including the first `>`, or `none` if there is no `>` (no regex match). -/
def dropTag : List Char → Option (List Char)
  | [] => none
  | c :: r => if c = '>' then some r else dropTag r

theorem dropTag_length : ∀ {l l' : List Char}, dropTag l = some l' → l'.length < l.length
  | [], _, h => by simp [dropTag] at h
  | c :: r, l', h => by
    by_cases hc : c = '>'
    · simp [dropTag, hc] at h
      subst h
      simp
    · simp [dropTag, hc] at h
      have := dropTag_length h
      simp
      omega

/-- `html.replace(/<[^>]*>/g, "")`: delete every `<...>` tag; a `<` with no
subsequent `>` is not matched by the regex and is kept. -/
def stripTags : List Char → List Char
  | [] => []
  | c :: rest =>
    if _hc : c = '<' then
      match hdt : dropTag rest with
      | some rest2 => stripTags rest2
      | none => c :: stripTags rest
    else c :: stripTags rest
termination_by l => l.length
decreasing_by
  · simp
    exact Nat.lt_succ_of_lt (dropTag_length hdt)
  · simp
  · simp

/--
`cleanText(html)` from the source. The JSDOM engine is the abstract parameter
`parse`: `parse h = some text` models a successful
`new JSDOM(h) ... body.textContent || ""` producing `text`, and
`parse h = none` models the constructor throwing, which sends the code to the
tag-stripping fallback path. `none` as input models a JS `null`/`undefined`
argument (falsy, like `""`).
-/
def cleanText (parse : String → Option String) (html : Option String) : String :=
  match html with
  | none => ""
  | some h =>
    if h = "" then ""
    else
      match parse h with
      | some text => normWS text
      | none => normWS (String.mk (stripTags h.toList))

/-! ### BoundedFetcher (`safeFetch`) -/

/-- What the underlying transport does for one request: delivers a complete
HTTP response (any status, body already readable), fails with a transport
error (DNS, TLS, reset, ...), or exceeds the 10s timer so the
`AbortController` aborts the request. -/
inductive NetworkEvent where
  | response (status : Nat) (text : String)
  | transportError (msg : String)
  | timeout
deriving DecidableEq

/-- The value `safeFetch` resolves with. -/
inductive FetchResult where
  | success (status : Nat) (text : String)
  | failure (error : String)
deriving DecidableEq

/-- String conversion of the abort exception raised when the timer fires. -/
def abortErrorString : String :=
  "AbortError: This operation was aborted"

/--
One run of `safeFetch`, as a pure function of the network event. The first
component is the result returned to the caller; the second records whether
`clearTimeout(timer)` was executed during the run. In the source,
`clearTimeout` sits between `await fetch(...)` and `await resp.text()`, so it
runs exactly on the path where `fetch` resolved; on the catch path (transport
error or abort) it is never reached.
-/
def safeFetchRun : NetworkEvent → FetchResult × Bool
  | .response s t => (.success s t, true)
  | .transportError m => (.failure m, false)
  | .timeout => (.failure abortErrorString, false)

/-! ### ChannelRegistry and AuthorityTable -/

structure Channel where
  id : String
  url : String → String

def generalChannels : List Channel :=
  [⟨"duckduckgo", fun q => "https://html.duckduckgo.com/html/?q=" ++ encodeURIComponent q⟩,
   ⟨"bing", fun q => "https://www.bing.com/search?q=" ++ encodeURIComponent q⟩,
   ⟨"brave", fun q => "https://search.brave.com/search?q=" ++ encodeURIComponent q⟩,
   ⟨"wikipedia", fun q =>
     "https://en.wikipedia.org/wiki/" ++
       encodeURIComponent (String.mk (replaceWSRuns (Char.ofNat 95) q.toList))⟩]

def flightsChannels : List Channel :=
  [⟨"duckduckgo", fun q => "https://html.duckduckgo.com/html/?q=" ++ encodeURIComponent (q ++ " flights")⟩,
   ⟨"google_preview", fun q => "https://www.google.com/search?q=" ++ encodeURIComponent (q ++ " flights")⟩,
   ⟨"skyscanner", fun q => "https://www.skyscanner.net/search?keywords=" ++ encodeURIComponent q⟩]

def dealsChannels : List Channel :=
  [⟨"google_shopping", fun q => "https://www.google.com/search?q=" ++ encodeURIComponent (q ++ " best price")⟩,
   ⟨"slickdeals", fun q => "https://slickdeals.net/newsearch.php?q=" ++ encodeURIComponent q⟩,
   ⟨"ebay", fun q => "https://www.ebay.com/sch/i.html?_nkw=" ++ encodeURIComponent q⟩]

def sportsChannels : List Channel :=
  [⟨"espn", fun q => "https://www.espn.com/search/results?q=" ++ encodeURIComponent q⟩,
   ⟨"bbc_sport", fun q => "https://www.bbc.co.uk/sport/search?q=" ++ encodeURIComponent q⟩,
   ⟨"duckduckgo", fun q => "https://html.duckduckgo.com/html/?q=" ++ encodeURIComponent (q ++ " sports")⟩]

def researchChannels : List Channel :=
  [⟨"arxiv", fun q => "https://arxiv.org/search/?query=" ++ encodeURIComponent q ++ "&searchtype=all"⟩,
   ⟨"semantic", fun q => "https://www.semanticscholar.org/search?q=" ++ encodeURIComponent q⟩,
   ⟨"pubmed", fun q => "https://pubmed.ncbi.nlm.nih.gov/?term=" ++ encodeURIComponent q⟩]

def financeChannels : List Channel :=
  [⟨"yahoo_finance", fun q => "https://finance.yahoo.com/lookup?s=" ++ encodeURIComponent q⟩,
   ⟨"marketwatch", fun q => "https://www.marketwatch.com/search?q=" ++ encodeURIComponent q⟩,
   ⟨"investing", fun q => "https://www.investing.com/search/?q=" ++ encodeURIComponent q⟩]

/-- The own property names of `Object.prototype` (Node 18). A bracket lookup
`CHANNELS[domain]` for any of these returns a truthy inherited value — a
function, or `Object.prototype` itself for `__proto__` — not an array. -/
def objectProtoMembers : List String :=
  ["constructor", "__defineGetter__", "__defineSetter__", "hasOwnProperty",
   "__lookupGetter__", "__lookupSetter__", "isPrototypeOf",
   "propertyIsEnumerable", "toString", "valueOf", "__proto__",
   "toLocaleString"]

/-- The value bound to `channels` by `CHANNELS[domain] || CHANNELS.general`:
either one of the channel arrays, or — when `domain` names an inherited
`Object.prototype` member — that truthy non-array value, on which the
subsequent `channels.map` throws a `TypeError`. -/
inductive ChannelsValue where
  | array (chs : List Channel)
  | protoMember

/-- `CHANNELS[domain] || CHANNELS.general`: own keys shadow the prototype;
an inherited `Object.prototype` member is truthy, so `||` keeps it; only a
genuinely absent key (`undefined`, falsy) falls back to `CHANNELS.general`. -/
def channelsFor (domain : String) : ChannelsValue :=
  if domain = "general" then .array generalChannels
  else if domain = "flights" then .array flightsChannels
  else if domain = "deals" then .array dealsChannels
  else if domain = "sports" then .array sportsChannels
  else if domain = "research" then .array researchChannels
  else if domain = "finance" then .array financeChannels
  else if objectProtoMembers.contains domain then .protoMember
  else .array generalChannels

def ChannelsValue.toList : ChannelsValue → List Channel
  | .array chs => chs
  | .protoMember => []

/-- The channel list the fusion stage runs over. On a `protoMember` domain
the handler throws at `channels.map` before any fetch, so the fusion stage is
never reached; `[]` is a placeholder for that unreachable case (the handler
model below returns `none` there without consulting this list). -/
def channelListFor (domain : String) : List Channel :=
  (channelsFor domain).toList

/-- `authorityFor(id)`: static trust weight, defaulting to 0.5. -/
def authorityFor (id : String) : Rat :=
  if id = "arxiv" then 0.95
  else if id = "pubmed" then 0.95
  else if id = "semantic" then 0.9
  else if id = "wikipedia" then 0.9
  else if id = "yahoo_finance" then 0.8
  else 0.5

/-! ### FusionEngine -/

structure ChannelResult where
  id : String
  url : String
  ok : Bool
  status : Option Nat
  error : Option String
  snippet : String
  matchScore : Nat
  authority : Rat
deriving DecidableEq

/--
The body of `channels.map(async (ch) => ...)` for one channel, applied to that
channel's settled fetch result. `status: r.status || null` and
`error: r.error || null` model the JS falsiness of `0`/`""`/`undefined`.
-/
def mkChannelResult (parse : String → Option String) (q : String) (ch : Channel)
    (r : FetchResult) : ChannelResult :=
  match r with
  | .success status text =>
    let snip := jsSlice (cleanText parse (some text)) 3000
    { id := ch.id
      url := ch.url q
      ok := true
      status := if status = 0 then none else some status
      error := none
      snippet := snip
      matchScore := if jsIncludes (jsToLower snip) (jsToLower q) then 1 else 0
      authority := authorityFor ch.id }
  | .failure msg =>
    { id := ch.id
      url := ch.url q
      ok := false
      status := none
      error := if msg = "" then none else some msg
      snippet := ""
      matchScore := 0
      authority := authorityFor ch.id }

structure RankedResult where
  id : String
  url : String
  ok : Bool
  status : Option Nat
  error : Option String
  snippet : String
  matchScore : Nat
  authority : Rat
  rank : Rat
deriving DecidableEq

/-- `{ ...r, rank: r.matchScore * r.authority }`. -/
def toRanked (r : ChannelResult) : RankedResult :=
  { id := r.id, url := r.url, ok := r.ok, status := r.status, error := r.error,
    snippet := r.snippet, matchScore := r.matchScore, authority := r.authority,
    rank := (r.matchScore : Rat) * r.authority }

/-- The comparator `(a,b) => b.rank - a.rank`: `a` may stay before `b` iff
`b.rank ≤ a.rank` (JS `Array.prototype.sort` is stable). -/
def rankLe (a b : RankedResult) : Bool :=
  decide (b.rank ≤ a.rank)

/-- `results.filter(r => r.ok).map(r => ({...r, rank})).sort((a,b) => b.rank - a.rank)`. -/
def rankedOf (results : List ChannelResult) : List RankedResult :=
  (((results.filter (fun r => r.ok)).map toRanked).mergeSort rankLe)

/-- `ranked.slice(0, 5)`. -/
def topOf (ranked : List RankedResult) : List RankedResult :=
  ranked.take 5

structure Finding where
  text : String
  cite : Option String
deriving DecidableEq

/-- `t.snippet.split(".").slice(0,2).map(s => s.trim()).filter(Boolean)`. -/
def segmentsOf (t : RankedResult) : List String :=
  ((((splitOnCh '.' t.snippet.toList).take 2).map (fun l => String.mk (trimWS l))).filter
    (fun s => s ≠ ""))

/-- `top[i % top.length]?.id || null`. -/
def citeOf (top : List RankedResult) (i : Nat) : Option String :=
  match top.get? (i % top.length) with
  | some t => if t.id = "" then none else some t.id
  | none => none

/-- The `findings` expression of the source. -/
def findingsOf (top : List RankedResult) : List Finding :=
  mapWithIdx (fun i s => { text := s, cite := citeOf top i })
    ((top.flatMap segmentsOf).take 6) 0

/-- `top.map(t => t.snippet.slice(0,300)).join(" ... ")`. -/
def executiveOf (top : List RankedResult) : String :=
  joinSep " ... " (top.map (fun t => jsSlice t.snippet 300))

structure AppendixEntry where
  id : String
  url : String
  authority : Rat
  status : Option Nat
deriving DecidableEq

/-- `ranked.map(r => ({id, url, authority, status}))`. -/
def appendixOf (ranked : List RankedResult) : List AppendixEntry :=
  ranked.map (fun r => ⟨r.id, r.url, r.authority, r.status⟩)

/-- `Math.round(Math.min(100, (top.reduce((s,r) => s+r.rank, 0)/(top.length||1))*100))`. -/
def confidenceOf (top : List RankedResult) : Int :=
  jsRound (min 100
    ((top.foldl (fun s r => s + r.rank) 0 /
      (if top.length = 0 then 1 else (top.length : Rat))) * 100))

structure AnswerPayload where
  executive_summary : String
  confidence : Int
  key_findings : List Finding
  detailed_analysis : String
  appendix : List AppendixEntry
  probe : String
deriving DecidableEq

/-- The per-channel fan-out: each channel paired with its settled fetch
result (the `Promise.all` join delivers one result per launched fetch). -/
def resultsOf (parse : String → Option String) (domain q : String)
    (outcomes : List FetchResult) : List ChannelResult :=
  List.zipWith (mkChannelResult parse q) (channelListFor domain) outcomes

/-- The `answer` object assembled by the handler after the join. -/
def answerOf (parse : String → Option String) (domain q : String)
    (outcomes : List FetchResult) : AnswerPayload :=
  let results := resultsOf parse domain q outcomes
  let ranked := rankedOf results
  let top := topOf ranked
  let executive := executiveOf top
  { executive_summary := if executive = "" then "No strong evidence found." else executive
    confidence := confidenceOf top
    key_findings := findingsOf top
    detailed_analysis :=
      "Searched " ++ toString ranked.length ++ " channels, top sources: " ++
        joinSep ", " (top.map (fun t => t.id))
    appendix := appendixOf ranked
    probe := "Would you like a deeper dive on any result?" }

/-! ### HTTP handler -/

inductive RespBody where
  | error (msg : String)
  | payload (query domain : String) (answer : AnswerPayload)
deriving DecidableEq

/-- JS `x || d` for an optional string (`undefined`/`null` and `""` are falsy). -/
def jsOrStr (x : Option String) (d : String) : String :=
  match x with
  | none => d
  | some s => if s = "" then d else s

/--
The exported handler: request parsing (`GET` query parameters vs `POST` JSON
body), the `!q` validation gate, the prototype-chain channel lookup, and the
200 response wrapping `answerOf`. The settled per-channel fetch results stand
in for the network. `none` models the handler completing with an uncaught
exception instead of a `Response`: when the domain names an inherited
`Object.prototype` member, `channels` is a truthy non-array value and
`channels.map` throws a `TypeError` (the `!q` gate runs before the lookup, so
a missing query is still answered 400).
-/
def handler (parse : String → Option String) (method : String)
    (queryDomain queryQ bodyDomain bodyQuery : Option String)
    (outcomes : List FetchResult) : Option (Nat × RespBody) :=
  let domain := if method = "GET" then jsOrStr queryDomain "general" else jsOrStr bodyDomain "general"
  let q := if method = "GET" then queryQ else bodyQuery
  match q with
  | none => some (400, .error "query required")
  | some qs =>
    if qs = "" then some (400, .error "query required")
    else
      match channelsFor domain with
      | .protoMember => none
      | .array _ => some (200, .payload qs domain (answerOf parse domain qs outcomes))

/-! ### Spec-side definitions (for refinement comparisons)

These follow the wording of the specification, to be compared with the
definitions translated from the source. -/

/-- The spec's citation rule `top[i % top.length].id` (no falsiness guard). -/
def citeSpec (top : List RankedResult) (i : Nat) : Option String :=
  (top.get? (i % top.length)).map (fun t => t.id)

/-- Per the claim's wording: from each snippet, the first 2 segments that are
non-empty after trimming. -/
def segmentsSpecStated (t : RankedResult) : List String :=
  ((((splitOnCh '.' t.snippet.toList)).map (fun l => String.mk (trimWS l))).filter
    (fun s => s ≠ "")).take 2

/-- `key_findings` per the claim as stated. -/
def findingsSpecStated (top : List RankedResult) : List Finding :=
  mapWithIdx (fun i s => { text := s, cite := citeSpec top i })
    ((top.flatMap segmentsSpecStated).take 6) 0

/-- `key_findings` per the amended claim: the first 2 raw split segments of
each snippet are taken, then trimmed, then empty ones dropped. -/
def findingsSpecAmended (top : List RankedResult) : List Finding :=
  mapWithIdx (fun i s => { text := s, cite := citeSpec top i })
    ((top.flatMap segmentsOf).take 6) 0

/-- The spec's confidence formula: round(min(100, average(rank) × 100)) with
denominator substitution 1 for an empty top set. -/
def confidenceSpec (top : List RankedResult) : Int :=
  jsRound (min 100
    (((top.map (fun r => r.rank)).sum /
      (if top.length = 0 then 1 else (top.length : Rat))) * 100))

/-- Whether a fetch outcome is an `ok: true` outcome. -/
def okOutcome : FetchResult → Bool
  | .success _ _ => true
  | .failure _ => false

/-- The projection placed in the appendix for one ranked result. -/
def appendixEntryOf (r : RankedResult) : AppendixEntry :=
  ⟨r.id, r.url, r.authority, r.status⟩

/-- Clean text in the sense of the TextNormalizer idempotence property:
ASCII with no markup-significant characters. -/
def cleanStr (s : String) : Bool :=
  s.toList.all (fun c => !(c = '<' || c = '>' || c = '&') && c.toNat < 128)

/-- No two adjacent whitespace characters. -/
def noAdjWS (l : List Char) : Prop :=
  List.Chain' (fun a b => isWS a = false ∨ isWS b = false) l

/-- The head, if any, is not whitespace. -/
def headNonWS (l : List Char) : Prop :=
  ∀ c ∈ l.head?, isWS c = false

end FusionAsk

namespace FusionAsk

/-! ### Helper lemmas -/

theorem mapWithIdx_length {α β : Type} (f : Nat → α → β) :
    ∀ (l : List α) (i : Nat), (mapWithIdx f l i).length = l.length
  | [], _ => rfl
  | _ :: t, i => by simp [mapWithIdx, mapWithIdx_length f t (i + 1)]

theorem mapWithIdx_congr {α β : Type} {f g : Nat → α → β}
    (h : ∀ i a, f i a = g i a) :
    ∀ (l : List α) (i : Nat), mapWithIdx f l i = mapWithIdx g l i
  | [], _ => rfl
  | a :: t, i => by simp [mapWithIdx, h i a, mapWithIdx_congr h t (i + 1)]

theorem mem_of_mem_zipWith {α β γ : Type} {f : α → β → γ} :
    ∀ {l1 : List α} {l2 : List β} {c : γ},
      c ∈ List.zipWith f l1 l2 → ∃ a ∈ l1, ∃ b ∈ l2, c = f a b
  | [], _, c, h => by simp [List.zipWith] at h
  | _ :: _, [], c, h => by simp [List.zipWith] at h
  | a :: as, b :: bs, c, h => by
    simp only [List.zipWith, List.mem_cons] at h
    rcases h with rfl | h
    · exact ⟨a, by simp, b, by simp, rfl⟩
    · obtain ⟨a2, ha, b2, hb, rfl⟩ := mem_of_mem_zipWith h
      exact ⟨a2, by simp [ha], b2, by simp [hb], rfl⟩

theorem authorityFor_nonneg (id : String) : 0 ≤ authorityFor id := by
  unfold authorityFor
  split_ifs <;> norm_num

theorem mkChannelResult_authority (parse : String → Option String) (q : String)
    (ch : Channel) (r : FetchResult) :
    (mkChannelResult parse q ch r).authority = authorityFor ch.id := by
  cases r <;> rfl

theorem mkChannelResult_id (parse : String → Option String) (q : String)
    (ch : Channel) (r : FetchResult) :
    (mkChannelResult parse q ch r).id = ch.id := by
  cases r <;> rfl

theorem mkChannelResult_ok (parse : String → Option String) (q : String)
    (ch : Channel) (r : FetchResult) :
    (mkChannelResult parse q ch r).ok = okOutcome r := by
  cases r <;> rfl

theorem mem_rankedOf {results : List ChannelResult} {r : RankedResult}
    (h : r ∈ rankedOf results) :
    ∃ c ∈ results, c.ok = true ∧ r = toRanked c := by
  unfold rankedOf at h
  rw [List.mem_mergeSort] at h
  obtain ⟨c, hc, rfl⟩ := List.mem_map.mp h
  exact ⟨c, List.mem_of_mem_filter hc, (List.mem_filter.mp hc).2, rfl⟩

theorem mem_topOf {ranked : List RankedResult} {r : RankedResult}
    (h : r ∈ topOf ranked) : r ∈ ranked :=
  List.mem_of_mem_take h

theorem toRanked_rank_nonneg {c : ChannelResult} (h : 0 ≤ c.authority) :
    0 ≤ (toRanked c).rank := by
  simpa [toRanked] using mul_nonneg (by positivity) h

theorem mem_resultsOf_authority {parse : String → Option String} {domain q : String}
    {outcomes : List FetchResult} {c : ChannelResult}
    (h : c ∈ resultsOf parse domain q outcomes) : 0 ≤ c.authority := by
  obtain ⟨ch, _, r, _, rfl⟩ := mem_of_mem_zipWith h
  rw [mkChannelResult_authority]
  exact authorityFor_nonneg ch.id

theorem rank_nonneg_of_mem_top {parse : String → Option String} {domain q : String}
    {outcomes : List FetchResult} {r : RankedResult}
    (h : r ∈ topOf (rankedOf (resultsOf parse domain q outcomes))) : 0 ≤ r.rank := by
  obtain ⟨c, hc, -, rfl⟩ := mem_rankedOf (mem_topOf h)
  exact toRanked_rank_nonneg (mem_resultsOf_authority hc)

theorem foldl_add_rank (l : List RankedResult) :
    ∀ a : Rat, l.foldl (fun s r => s + r.rank) a = a + (l.map (fun r => r.rank)).sum := by
  induction l with
  | nil => simp
  | cons x t ih => intro a; simp [List.foldl_cons, ih]; ring

theorem jsRound_bounds {x : Rat} (h0 : 0 ≤ x) (h100 : x ≤ 100) :
    0 ≤ jsRound x ∧ jsRound x ≤ 100 := by
  unfold jsRound
  constructor
  · exact Int.le_floor.mpr (by push_cast; linarith)
  · have : ⌊x + 1/2⌋ < 101 := Int.floor_lt.mpr (by push_cast; linarith)
    omega

/-! ### C5 and C9: BoundedFetcher -/

/-- C5: `safeFetch` never propagates an exception: as a pure function of the
network event it is total, returning `ok:false` with the stringified error on
any transport error or abort, and `ok:true` with the response's status and
body text on any HTTP response, whatever the status code. -/
theorem safeFetch_never_throws :
    (∀ s t, (safeFetchRun (.response s t)).1 = .success s t) ∧
    (∀ m, (safeFetchRun (.transportError m)).1 = .failure m) ∧
    (safeFetchRun .timeout).1 = .failure abortErrorString :=
  ⟨fun _ _ => rfl, fun _ => rfl, rfl⟩

/-- C9: `clearTimeout` sits after `await fetch` inside the `try` block, so on
the transport-error path (and on the abort path) it is never executed — the
timer is only cleared on the success path, contradicting the requirement that
it be cleared on every path. -/
theorem safeFetch_timer_cleared_only_on_success :
    (safeFetchRun (.transportError "TypeError: fetch failed")).2 = false ∧
    (safeFetchRun .timeout).2 = false ∧
    (safeFetchRun (.response 200 "body")).2 = true :=
  ⟨rfl, rfl, rfl⟩

/-! ### C7: snippet capping and match scoring -/

/-- C7: for a successful fetch the snippet is the normalized body truncated
to at most 3000 characters, and `matchScore` is 1 exactly when the
lower-cased query occurs as a substring of the lower-cased capped snippet. -/
theorem snippet_cap_and_matchScore (parse : String → Option String) (q : String)
    (ch : Channel) (status : Nat) (body : String) :
    (mkChannelResult parse q ch (.success status body)).snippet
      = jsSlice (cleanText parse (some body)) 3000 ∧
    (mkChannelResult parse q ch (.success status body)).snippet.length ≤ 3000 ∧
    ((mkChannelResult parse q ch (.success status body)).matchScore = 1 ↔
      jsIncludes
        (jsToLower (mkChannelResult parse q ch (.success status body)).snippet)
        (jsToLower q) = true) := by
  refine ⟨rfl, ?_, ?_⟩
  · show (jsSlice (cleanText parse (some body)) 3000).length ≤ 3000
    simp only [jsSlice, String.length, String.mk]
    exact le_trans (List.length_take_le 3000 _) (le_refl 3000)
  · simp only [mkChannelResult]
    split <;> simp_all

/-! ### C10: failed channels -/

/-- C10: a failed fetch yields a channel result with empty snippet, zero
match score, null status, non-null error, `ok = false`; and ranking filters
to `ok = true` results only, so a failed channel reaches no downstream
structure. -/
theorem failed_channel_inert (parse : String → Option String) (q : String)
    (ch : Channel) (msg : String) (hmsg : msg ≠ "") :
    (mkChannelResult parse q ch (.failure msg)).snippet = "" ∧
    (mkChannelResult parse q ch (.failure msg)).matchScore = 0 ∧
    (mkChannelResult parse q ch (.failure msg)).status = none ∧
    (mkChannelResult parse q ch (.failure msg)).error = some msg ∧
    (mkChannelResult parse q ch (.failure msg)).ok = false ∧
    ∀ (results : List ChannelResult) (r : RankedResult),
      r ∈ rankedOf results → r.ok = true := by
  refine ⟨rfl, rfl, rfl, ?_, rfl, ?_⟩
  · simp [mkChannelResult, hmsg]
  · intro results r hr
    obtain ⟨c, -, hok, rfl⟩ := mem_rankedOf hr
    simpa [toRanked] using hok

/-- Witness for C10 at a concrete failed channel. -/
theorem failed_channel_inert_witness :
    (mkChannelResult (fun s => some s) "q" ⟨"x", fun u => u⟩
        (FetchResult.failure "boom")).snippet = "" ∧
    (mkChannelResult (fun s => some s) "q" ⟨"x", fun u => u⟩
        (FetchResult.failure "boom")).matchScore = 0 ∧
    (mkChannelResult (fun s => some s) "q" ⟨"x", fun u => u⟩
        (FetchResult.failure "boom")).status = none ∧
    (mkChannelResult (fun s => some s) "q" ⟨"x", fun u => u⟩
        (FetchResult.failure "boom")).error = some "boom" ∧
    (mkChannelResult (fun s => some s) "q" ⟨"x", fun u => u⟩
        (FetchResult.failure "boom")).ok = false := by
  have h := failed_channel_inert (fun s => some s) "q" ⟨"x", fun u => u⟩ "boom" (by decide)
  exact ⟨h.1, h.2.1, h.2.2.1, h.2.2.2.1, h.2.2.2.2.1⟩

/-! ### C3: confidence -/

theorem confidenceOf_eq_spec (top : List RankedResult) :
    confidenceOf top = confidenceSpec top := by
  unfold confidenceOf confidenceSpec
  rw [foldl_add_rank]
  norm_num

/-- C3: the confidence of every answer payload is an integer in [0, 100]; it
equals round(min(100, average(rank over top) × 100)) with denominator
substitution 1 on an empty top set, and an empty top set yields 0. -/
theorem confidence_int_in_range (parse : String → Option String) (domain q : String)
    (outcomes : List FetchResult) :
    0 ≤ (answerOf parse domain q outcomes).confidence ∧
    (answerOf parse domain q outcomes).confidence ≤ 100 ∧
    (answerOf parse domain q outcomes).confidence
      = confidenceSpec (topOf (rankedOf (resultsOf parse domain q outcomes))) ∧
    confidenceOf [] = 0 := by
  have hconf : (answerOf parse domain q outcomes).confidence
      = confidenceOf (topOf (rankedOf (resultsOf parse domain q outcomes))) := rfl
  set top := topOf (rankedOf (resultsOf parse domain q outcomes)) with htop
  have hsum : 0 ≤ (top.map (fun r => r.rank)).sum := by
    apply List.sum_nonneg
    intro x hx
    obtain ⟨r, hr, rfl⟩ := List.mem_map.mp hx
    exact rank_nonneg_of_mem_top (htop ▸ hr)
  have hden : (0 : Rat) < (if top.length = 0 then 1 else (top.length : Rat)) := by
    split
    · norm_num
    · exact_mod_cast Nat.pos_of_ne_zero (by assumption)
  have havg : 0 ≤ ((top.map (fun r => r.rank)).sum /
      (if top.length = 0 then 1 else (top.length : Rat))) * 100 := by
    positivity
  have hx0 : (0 : Rat) ≤ min 100 (((top.map (fun r => r.rank)).sum /
      (if top.length = 0 then 1 else (top.length : Rat))) * 100) :=
    le_min (by norm_num) havg
  have hx100 : min 100 (((top.map (fun r => r.rank)).sum /
      (if top.length = 0 then 1 else (top.length : Rat))) * 100) ≤ 100 :=
    min_le_left _ _
  obtain ⟨hb0, hb100⟩ := jsRound_bounds hx0 hx100
  refine ⟨?_, ?_, ?_, ?_⟩
  · rw [hconf, confidenceOf_eq_spec]
    exact hb0
  · rw [hconf, confidenceOf_eq_spec]
    exact hb100
  · rw [hconf, confidenceOf_eq_spec]
  · unfold confidenceOf jsRound
    norm_num

/-! ### C6: handler validation and the prototype-chain crash -/

/-- C6 (code bug): the 400 half of the claim is faithful — the handler
answers 400 with body `error "query required"` exactly when the effective
query is missing or empty, whatever the domain and outcomes — but the 200
half fails on the code: with the non-empty query `"hello"` and domain
`"toString"` (an inherited `Object.prototype` member), `channels.map` throws
a `TypeError` and NO response is produced (`none`), although every channel
fetch is irrelevant to it; a genuinely unknown domain such as `"nonsense"`
does fall back to the general list and yields the 200 payload, as the spec
intends for every unknown domain. -/
theorem handler_validation_and_proto_crash :
    handler (fun s => some s) "GET" (some "toString") (some "hello") none none
        [FetchResult.failure "e", FetchResult.failure "e",
         FetchResult.failure "e", FetchResult.failure "e"] = none ∧
    (∃ ans, handler (fun s => some s) "GET" (some "nonsense") (some "hello") none none
        [FetchResult.failure "e", FetchResult.failure "e",
         FetchResult.failure "e", FetchResult.failure "e"]
      = some (200, RespBody.payload "hello" "nonsense" ans)) ∧
    ∀ (parse : String → Option String) (method : String)
      (queryDomain queryQ bodyDomain bodyQuery : Option String)
      (outcomes : List FetchResult),
      (handler parse method queryDomain queryQ bodyDomain bodyQuery outcomes
          = some (400, .error "query required") ↔
        ((if method = "GET" then queryQ else bodyQuery) = none ∨
         (if method = "GET" then queryQ else bodyQuery) = some "")) := by
  refine ⟨by decide, ⟨answerOf (fun s => some s) "nonsense" "hello"
      [FetchResult.failure "e", FetchResult.failure "e",
       FetchResult.failure "e", FetchResult.failure "e"], rfl⟩, ?_⟩
  intro parse method queryDomain queryQ bodyDomain bodyQuery outcomes
  unfold handler
  cases hq : (if method = "GET" then queryQ else bodyQuery) with
  | none => simp
  | some s =>
    by_cases hs : s = ""
    · subst hs; simp
    · cases hcv : channelsFor (if method = "GET" then jsOrStr queryDomain "general"
          else jsOrStr bodyDomain "general") with
      | array chs => simp [hs, hcv]
      | protoMember => simp [hs, hcv]

/-! ### C4: appendix structure and ranking order -/

theorem filter_ok_zipWith_length (parse : String → Option String) (q : String) :
    ∀ (chs : List Channel) (outs : List FetchResult), outs.length = chs.length →
      ((List.zipWith (mkChannelResult parse q) chs outs).filter
          (fun r => r.ok)).length
        = (outs.filter okOutcome).length
  | [], [], _ => rfl
  | [], _ :: _, h => by simp at h
  | _ :: _, [], h => by simp at h
  | ch :: chs, out :: outs, h => by
    simp only [List.length_cons, Nat.succ.injEq] at h
    simp only [List.zipWith, List.filter, mkChannelResult_ok]
    cases out <;>
      simp [okOutcome, filter_ok_zipWith_length parse q chs outs h]

theorem mergeSort_short {α : Type} (le : α → α → Bool) :
    ∀ (l : List α), l.length ≤ 1 → l.mergeSort le = l
  | [], _ => List.mergeSort_nil
  | [a], _ => List.mergeSort_singleton a
  | _ :: _ :: _, h => by simp at h

theorem rankLe_trans (a b c : RankedResult) :
    rankLe a b → rankLe b c → rankLe a c := by
  unfold rankLe
  intro h1 h2
  exact decide_eq_true (le_trans (of_decide_eq_true h2) (of_decide_eq_true h1))

theorem rankLe_total (a b : RankedResult) : rankLe a b || rankLe b a := by
  unfold rankLe
  rcases le_total a.rank b.rank with h | h <;> simp [h]

theorem rankedOf_pairwise (results : List ChannelResult) :
    List.Pairwise (fun a b => b.rank ≤ a.rank) (rankedOf results) := by
  have h := List.sorted_mergeSort rankLe_trans rankLe_total
    ((results.filter (fun r => r.ok)).map toRanked)
  exact h.imp (fun hab => of_decide_eq_true hab)

/-- C4: for a non-empty query and one settled outcome per channel, the
appendix lists exactly the `ok: true` outcomes (one entry per success, failed
channels omitted), it is the rank-sorted projection of the successful
results with rank monotonically non-increasing, and `key_findings` has at
most 6 entries. -/
theorem appendix_and_findings_shape (parse : String → Option String)
    (domain q : String) (outcomes : List FetchResult) (hq : q ≠ "")
    (hlen : outcomes.length = (channelListFor domain).length) :
    (answerOf parse domain q outcomes).appendix.length
      = (outcomes.filter okOutcome).length ∧
    (answerOf parse domain q outcomes).appendix.Perm
      (((resultsOf parse domain q outcomes).filter (fun r => r.ok)).map
        (fun r => appendixEntryOf (toRanked r))) ∧
    List.Pairwise (fun a b => b.rank ≤ a.rank)
      (rankedOf (resultsOf parse domain q outcomes)) ∧
    (answerOf parse domain q outcomes).appendix
      = appendixOf (rankedOf (resultsOf parse domain q outcomes)) ∧
    (answerOf parse domain q outcomes).key_findings.length ≤ 6 := by
  have happ : (answerOf parse domain q outcomes).appendix
      = appendixOf (rankedOf (resultsOf parse domain q outcomes)) := rfl
  refine ⟨?_, ?_, rankedOf_pairwise _, happ, ?_⟩
  · rw [happ]
    unfold appendixOf rankedOf
    rw [List.length_map, List.length_mergeSort, List.length_map]
    exact filter_ok_zipWith_length parse q (channelListFor domain) outcomes hlen
  · rw [happ]
    unfold appendixOf rankedOf
    have hperm := (List.mergeSort_perm
      (((resultsOf parse domain q outcomes).filter (fun r => r.ok)).map toRanked)
      rankLe).map appendixEntryOf
    rw [List.map_map] at hperm
    exact hperm
  · show (findingsOf (topOf (rankedOf (resultsOf parse domain q outcomes)))).length ≤ 6
    unfold findingsOf
    rw [mapWithIdx_length]
    exact le_trans (List.length_take_le 6 _) (le_refl 6)

/-- Witness for C4: a non-empty query over the general domain with all four
channels failing. -/
theorem appendix_and_findings_shape_witness :
    (answerOf (fun s => some s) "general" "a"
        [FetchResult.failure "e", FetchResult.failure "e",
         FetchResult.failure "e", FetchResult.failure "e"]).appendix.length
      = ([FetchResult.failure "e", FetchResult.failure "e",
          FetchResult.failure "e", FetchResult.failure "e"].filter okOutcome).length ∧
    (answerOf (fun s => some s) "general" "a"
        [FetchResult.failure "e", FetchResult.failure "e",
         FetchResult.failure "e", FetchResult.failure "e"]).key_findings.length ≤ 6 := by
  have h := appendix_and_findings_shape (fun s => some s) "general" "a"
    [FetchResult.failure "e", FetchResult.failure "e",
     FetchResult.failure "e", FetchResult.failure "e"]
    (by decide) (by decide)
  exact ⟨h.1, h.2.2.2.2⟩

/-! ### C1: key findings -/

theorem channelsFor_array_id_ne (domain : String) (chs : List Channel)
    (h : channelsFor domain = .array chs) : ∀ ch ∈ chs, ch.id ≠ "" := by
  unfold channelsFor at h
  split_ifs at h <;>
    first
      | exact ChannelsValue.noConfusion h
      | (injection h with h2
         subst h2
         intro ch hch
         first
           | (simp only [generalChannels, List.mem_cons, List.not_mem_nil, or_false] at hch
              rcases hch with rfl | rfl | rfl | rfl <;> decide)
           | (simp only [flightsChannels, List.mem_cons, List.not_mem_nil, or_false] at hch
              rcases hch with rfl | rfl | rfl <;> decide)
           | (simp only [dealsChannels, List.mem_cons, List.not_mem_nil, or_false] at hch
              rcases hch with rfl | rfl | rfl <;> decide)
           | (simp only [sportsChannels, List.mem_cons, List.not_mem_nil, or_false] at hch
              rcases hch with rfl | rfl | rfl <;> decide)
           | (simp only [researchChannels, List.mem_cons, List.not_mem_nil, or_false] at hch
              rcases hch with rfl | rfl | rfl <;> decide)
           | (simp only [financeChannels, List.mem_cons, List.not_mem_nil, or_false] at hch
              rcases hch with rfl | rfl | rfl <;> decide))

theorem channelListFor_id_ne (domain : String) :
    ∀ ch ∈ channelListFor domain, ch.id ≠ "" := by
  intro ch hch
  unfold channelListFor at hch
  cases hcv : channelsFor domain with
  | array chs =>
    rw [hcv] at hch
    simp only [ChannelsValue.toList] at hch
    exact channelsFor_array_id_ne domain chs hcv ch hch
  | protoMember =>
    rw [hcv] at hch
    simp [ChannelsValue.toList] at hch

theorem top_id_ne (parse : String → Option String) (domain q : String)
    (outcomes : List FetchResult) :
    ∀ t ∈ topOf (rankedOf (resultsOf parse domain q outcomes)), t.id ≠ "" := by
  intro t ht
  obtain ⟨c, hc, -, rfl⟩ := mem_rankedOf (mem_topOf ht)
  obtain ⟨ch, hch, r, -, rfl⟩ := mem_of_mem_zipWith hc
  show (toRanked (mkChannelResult parse q ch r)).id ≠ ""
  simp only [toRanked, mkChannelResult_id]
  exact channelListFor_id_ne domain ch hch

theorem citeOf_eq_citeSpec {top : List RankedResult}
    (hids : ∀ t ∈ top, t.id ≠ "") (i : Nat) : citeOf top i = citeSpec top i := by
  unfold citeOf citeSpec
  cases hget : top.get? (i % top.length) with
  | none => rfl
  | some t => simp [hids t (List.get?_mem hget)]

theorem findingsOf_eq_amended {top : List RankedResult}
    (hids : ∀ t ∈ top, t.id ≠ "") : findingsOf top = findingsSpecAmended top := by
  unfold findingsOf findingsSpecAmended
  exact mapWithIdx_congr (fun i s => by rw [citeOf_eq_citeSpec hids i]) _ 0

/-- C1 (amended): `key_findings` is built by splitting each top snippet on
`.`, taking the FIRST 2 RAW SEGMENTS per snippet, trimming those and dropping
the empty ones, flattening in top-set order, capping at 6, and assigning
entry `i` the citation `top[i % top.length].id`. -/
theorem key_findings_amended (parse : String → Option String) (domain q : String)
    (outcomes : List FetchResult) :
    (answerOf parse domain q outcomes).key_findings
      = findingsSpecAmended (topOf (rankedOf (resultsOf parse domain q outcomes))) :=
  findingsOf_eq_amended (top_id_ne parse domain q outcomes)

/-- Counterexample to C1 as stated: with the single successful body
`". x. y"` the code produces one finding (it slices the first 2 raw segments
`["", " x"]` before trimming and filtering), while the claim's recipe — first
2 non-empty trimmed segments per snippet — would produce two. -/
theorem key_findings_counterexample :
    (answerOf (fun s => some s) "general" "zzz"
        [FetchResult.success 200 ". x. y", FetchResult.failure "e",
         FetchResult.failure "e", FetchResult.failure "e"]).key_findings
      ≠ findingsSpecStated (topOf (rankedOf (resultsOf (fun s => some s) "general" "zzz"
        [FetchResult.success 200 ". x. y", FetchResult.failure "e",
         FetchResult.failure "e", FetchResult.failure "e"]))) := by
  have hranked : rankedOf (resultsOf (fun s => some s) "general" "zzz"
      [FetchResult.success 200 ". x. y", FetchResult.failure "e",
       FetchResult.failure "e", FetchResult.failure "e"])
      = ((resultsOf (fun s => some s) "general" "zzz"
          [FetchResult.success 200 ". x. y", FetchResult.failure "e",
           FetchResult.failure "e", FetchResult.failure "e"]).filter
            (fun r => r.ok)).map toRanked :=
    mergeSort_short rankLe _ (by decide)
  show findingsOf (topOf (rankedOf (resultsOf (fun s => some s) "general" "zzz"
      [FetchResult.success 200 ". x. y", FetchResult.failure "e",
       FetchResult.failure "e", FetchResult.failure "e"]))) ≠ _
  rw [hranked]
  decide

/-! ### C2: executive summary -/

theorem string_data_eq_empty {s : String} : s = "" ↔ s.data = [] := by
  constructor
  · intro h; subst h; rfl
  · intro h; cases s; simp_all

theorem jsSlice_eq_empty {n : Nat} (hn : n ≠ 0) {s : String} :
    jsSlice s n = "" ↔ s = "" := by
  constructor
  · intro h
    have h2 : s.toList.take n = ([] : List Char) := congrArg String.data h
    rw [List.take_eq_nil_iff] at h2
    rcases h2 with h2 | h2
    · exact absurd h2 hn
    · exact string_data_eq_empty.mpr h2
  · intro h; subst h; simp [jsSlice]

theorem executiveOf_eq_empty_iff :
    ∀ (top : List RankedResult),
      executiveOf top = "" ↔ top = [] ∨ ∃ t, top = [t] ∧ t.snippet = ""
  | [] => by simp [executiveOf, joinSep]
  | [t] => by
    simp only [executiveOf, List.map_cons, List.map_nil, joinSep]
    constructor
    · intro h
      exact Or.inr ⟨t, rfl, (jsSlice_eq_empty (by norm_num)).mp h⟩
    · rintro (h | ⟨t2, ht2, hs⟩)
      · exact absurd h (by simp)
      · obtain rfl : t = t2 := by injection ht2
        exact (jsSlice_eq_empty (by norm_num)).mpr hs
  | a :: b :: rest => by
    constructor
    · intro h
      exfalso
      have hl := congrArg String.length h
      have h5 : (" ... " : String).length = 5 := rfl
      have h0 : ("" : String).length = 0 := rfl
      simp only [executiveOf, List.map_cons, joinSep, String.length_append, h5, h0] at hl
      omega
    · rintro (h | ⟨t2, ht2, _⟩)
      · exact absurd h (by simp)
      · exact absurd ht2 (by simp)

/-- C2 (amended): `executive_summary` is the join of the top snippets (each
truncated to 300 characters) with separator `" ... "` whenever that join is
non-empty; the literal fallback is used exactly when the JOIN is the empty
string, which happens when the top set is empty OR when the top set is a
single result whose snippet is empty. -/
theorem executive_summary_amended (parse : String → Option String) (domain q : String)
    (outcomes : List FetchResult) :
    (answerOf parse domain q outcomes).executive_summary
      = (if executiveOf (topOf (rankedOf (resultsOf parse domain q outcomes))) = ""
         then "No strong evidence found."
         else executiveOf (topOf (rankedOf (resultsOf parse domain q outcomes)))) ∧
    (executiveOf (topOf (rankedOf (resultsOf parse domain q outcomes))) = "" ↔
      topOf (rankedOf (resultsOf parse domain q outcomes)) = [] ∨
      ∃ t, topOf (rankedOf (resultsOf parse domain q outcomes)) = [t] ∧ t.snippet = "") :=
  ⟨rfl, executiveOf_eq_empty_iff _⟩

/-- Counterexample to C2 as stated: one channel succeeds with an empty body,
so the top set is non-empty (one entry with an empty snippet) and yet the
fallback string is used and the summary is not the join of the truncated
snippets (which is `""`). -/
theorem executive_summary_counterexample :
    (answerOf (fun s => some s) "general" "q"
        [FetchResult.success 200 "", FetchResult.failure "e",
         FetchResult.failure "e", FetchResult.failure "e"]).executive_summary
      = "No strong evidence found." ∧
    topOf (rankedOf (resultsOf (fun s => some s) "general" "q"
        [FetchResult.success 200 "", FetchResult.failure "e",
         FetchResult.failure "e", FetchResult.failure "e"])) ≠ [] ∧
    (answerOf (fun s => some s) "general" "q"
        [FetchResult.success 200 "", FetchResult.failure "e",
         FetchResult.failure "e", FetchResult.failure "e"]).executive_summary
      ≠ executiveOf (topOf (rankedOf (resultsOf (fun s => some s) "general" "q"
        [FetchResult.success 200 "", FetchResult.failure "e",
         FetchResult.failure "e", FetchResult.failure "e"]))) := by
  have hranked : rankedOf (resultsOf (fun s => some s) "general" "q"
      [FetchResult.success 200 "", FetchResult.failure "e",
       FetchResult.failure "e", FetchResult.failure "e"])
      = ((resultsOf (fun s => some s) "general" "q"
          [FetchResult.success 200 "", FetchResult.failure "e",
           FetchResult.failure "e", FetchResult.failure "e"]).filter
            (fun r => r.ok)).map toRanked :=
    mergeSort_short rankLe _ (by decide)
  refine ⟨?_, ?_, ?_⟩
  · show (if executiveOf (topOf (rankedOf (resultsOf (fun s => some s) "general" "q"
        [FetchResult.success 200 "", FetchResult.failure "e",
         FetchResult.failure "e", FetchResult.failure "e"]))) = ""
       then "No strong evidence found."
       else executiveOf (topOf (rankedOf (resultsOf (fun s => some s) "general" "q"
        [FetchResult.success 200 "", FetchResult.failure "e",
         FetchResult.failure "e", FetchResult.failure "e"]))))
      = "No strong evidence found."
    rw [hranked]
    decide
  · rw [hranked]
    decide
  · show (if executiveOf (topOf (rankedOf (resultsOf (fun s => some s) "general" "q"
        [FetchResult.success 200 "", FetchResult.failure "e",
         FetchResult.failure "e", FetchResult.failure "e"]))) = ""
       then "No strong evidence found."
       else executiveOf (topOf (rankedOf (resultsOf (fun s => some s) "general" "q"
        [FetchResult.success 200 "", FetchResult.failure "e",
         FetchResult.failure "e", FetchResult.failure "e"]))))
      ≠ executiveOf (topOf (rankedOf (resultsOf (fun s => some s) "general" "q"
        [FetchResult.success 200 "", FetchResult.failure "e",
         FetchResult.failure "e", FetchResult.failure "e"])))
    rw [hranked]
    decide

/-! ### C8: TextNormalizer idempotence -/

theorem aux_cons_ws_true {rep a : Char} {t : List Char} (ha : isWS a = true) :
    replaceWSRunsAux rep (a :: t) true = replaceWSRunsAux rep t true := by
  simp [replaceWSRunsAux, ha]

theorem aux_cons_ws_false {rep a : Char} {t : List Char} (ha : isWS a = true) :
    replaceWSRunsAux rep (a :: t) false = rep :: replaceWSRunsAux rep t true := by
  simp [replaceWSRunsAux, ha]

theorem aux_cons_nws {rep a : Char} {t : List Char} {b : Bool} (ha : isWS a = false) :
    replaceWSRunsAux rep (a :: t) b = a :: replaceWSRunsAux rep t false := by
  simp [replaceWSRunsAux, ha]

theorem mem_replaceWSRunsAux {rep : Char} :
    ∀ {l : List Char} {b : Bool} {c : Char},
      c ∈ replaceWSRunsAux rep l b → c = rep ∨ (c ∈ l ∧ isWS c = false)
  | [], b, c, h => by simp [replaceWSRunsAux] at h
  | a :: t, b, c, h => by
    rcases hws : isWS a with hfalse | htrue
    · rw [aux_cons_nws hws] at h
      rcases List.mem_cons.mp h with rfl | h2
      · exact Or.inr ⟨List.mem_cons_self c t, hws⟩
      · rcases mem_replaceWSRunsAux h2 with h3 | ⟨h3, h4⟩
        · exact Or.inl h3
        · exact Or.inr ⟨List.mem_cons_of_mem a h3, h4⟩
    · cases b with
      | true =>
        rw [aux_cons_ws_true hws] at h
        rcases mem_replaceWSRunsAux h with h2 | ⟨h2, h3⟩
        · exact Or.inl h2
        · exact Or.inr ⟨List.mem_cons_of_mem a h2, h3⟩
      | false =>
        rw [aux_cons_ws_false hws] at h
        rcases List.mem_cons.mp h with rfl | h2
        · exact Or.inl rfl
        · rcases mem_replaceWSRunsAux h2 with h3 | ⟨h3, h4⟩
          · exact Or.inl h3
          · exact Or.inr ⟨List.mem_cons_of_mem a h3, h4⟩

theorem mem_trimWS {l : List Char} {c : Char} (h : c ∈ trimWS l) : c ∈ l := by
  unfold trimWS at h
  rw [List.mem_reverse] at h
  have h2 := (List.dropWhile_suffix isWS).subset h
  rw [List.mem_reverse] at h2
  exact (List.dropWhile_suffix isWS).subset h2

theorem headNonWS_aux_true :
    ∀ (l : List Char), headNonWS (replaceWSRunsAux ' ' l true)
  | [] => by intro c hc; simp [replaceWSRunsAux] at hc
  | a :: t => by
    rcases hws : isWS a with hfalse | htrue
    · rw [aux_cons_nws hws]
      intro c hc
      simp only [List.head?_cons] at hc
      have hac : a = c := by simpa using hc
      subst hac
      exact hws
    · rw [aux_cons_ws_true hws]
      exact headNonWS_aux_true t

theorem noAdjWS_aux : ∀ (l : List Char) (b : Bool), noAdjWS (replaceWSRunsAux ' ' l b)
  | [], _ => List.chain'_nil
  | a :: t, b => by
    rcases hws : isWS a with hfalse | htrue
    · rw [aux_cons_nws hws]
      unfold noAdjWS
      rw [List.chain'_cons']
      exact ⟨fun y _ => Or.inl hws, noAdjWS_aux t false⟩
    · cases b with
      | true =>
        rw [aux_cons_ws_true hws]
        exact noAdjWS_aux t true
      | false =>
        rw [aux_cons_ws_false hws]
        unfold noAdjWS
        rw [List.chain'_cons']
        exact ⟨fun y hy => Or.inr (headNonWS_aux_true t y hy), noAdjWS_aux t true⟩

theorem noAdjWS_dropWhile (p : Char → Bool) :
    ∀ {l : List Char}, noAdjWS l → noAdjWS (l.dropWhile p)
  | [], h => h
  | a :: t, h => by
    rcases hp : p a with hfalse | htrue
    · rwa [List.dropWhile_cons_of_neg (by simp [hp])]
    · rw [List.dropWhile_cons_of_pos hp]
      exact noAdjWS_dropWhile p h.tail

theorem noAdjWS_reverse {l : List Char} (h : noAdjWS l) : noAdjWS l.reverse := by
  unfold noAdjWS at h ⊢
  rw [List.chain'_reverse]
  exact h.imp (fun _ _ hab => hab.symm)

theorem noAdjWS_trimWS {l : List Char} (h : noAdjWS l) : noAdjWS (trimWS l) := by
  unfold trimWS
  exact noAdjWS_reverse (noAdjWS_dropWhile isWS (noAdjWS_reverse (noAdjWS_dropWhile isWS h)))

theorem aux_eq_self :
    ∀ (l : List Char) (b : Bool),
      (∀ c ∈ l, isWS c = false ∨ c = ' ') → noAdjWS l → (b = true → headNonWS l) →
      replaceWSRunsAux ' ' l b = l
  | [], _, _, _, _ => rfl
  | a :: t, b, hchars, hadj, hhead => by
    rcases hws : isWS a with hfalse | htrue
    · rw [aux_cons_nws hws,
        aux_eq_self t false (fun c hc => hchars c (List.mem_cons_of_mem a hc))
          hadj.tail (fun hb => by simp at hb)]
    · cases b with
      | true =>
        have := hhead rfl a (by simp)
        rw [hws] at this
        exact absurd this (by simp)
      | false =>
        have ha2 : a = ' ' := by
          rcases hchars a (by simp) with h2 | h2
          · rw [hws] at h2; exact absurd h2 (by simp)
          · exact h2
        have hheadt : headNonWS t := by
          intro y hy
          rcases (List.chain'_cons'.mp hadj).1 y hy with h2 | h2
          · rw [hws] at h2; exact absurd h2 (by simp)
          · exact h2
        rw [aux_cons_ws_false hws,
          aux_eq_self t true (fun c hc => hchars c (List.mem_cons_of_mem a hc))
            hadj.tail (fun _ => hheadt), ha2]

theorem dropWhile_of_headNonWS : ∀ {l : List Char}, headNonWS l → l.dropWhile isWS = l
  | [], _ => rfl
  | a :: t, h => by
    have ha : isWS a = false := h a (by simp)
    rw [List.dropWhile_cons_of_neg (by simp [ha])]

theorem headNonWS_dropWhile : ∀ (l : List Char), headNonWS (l.dropWhile isWS)
  | [] => by intro c hc; simp at hc
  | a :: t => by
    rcases hws : isWS a with hfalse | htrue
    · rw [List.dropWhile_cons_of_neg (by simp [hws])]
      intro c hc
      have hac : a = c := by simpa using hc
      subst hac
      exact hws
    · rw [List.dropWhile_cons_of_pos hws]
      exact headNonWS_dropWhile t

theorem headNonWS_left {l1 l2 : List Char} (h : l1 <+: l2) (h2 : headNonWS l2) :
    headNonWS l1 := by
  intro c hc
  obtain ⟨t, rfl⟩ := h
  cases l1 with
  | nil => simp at hc
  | cons a t1 =>
    have hac : a = c := by simpa using hc
    subst hac
    exact h2 a (by simp)

theorem trimWS_headNonWS (l : List Char) : headNonWS (trimWS l) := by
  have hsuffix : (l.dropWhile isWS).reverse.dropWhile isWS <:+ (l.dropWhile isWS).reverse :=
    List.dropWhile_suffix isWS
  have hpre := List.reverse_prefix.mpr hsuffix
  rw [List.reverse_reverse] at hpre
  exact headNonWS_left hpre (headNonWS_dropWhile l)

theorem trimWS_idem (l : List Char) : trimWS (trimWS l) = trimWS l := by
  have h1 : (trimWS l).dropWhile isWS = trimWS l :=
    dropWhile_of_headNonWS (trimWS_headNonWS l)
  have h2 : trimWS (trimWS l)
      = (((trimWS l).dropWhile isWS).reverse.dropWhile isWS).reverse := rfl
  rw [h2, h1]
  have h3 : (trimWS l).reverse = (l.dropWhile isWS).reverse.dropWhile isWS := by
    show ((((l.dropWhile isWS).reverse.dropWhile isWS).reverse)).reverse = _
    rw [List.reverse_reverse]
  rw [h3, dropWhile_of_headNonWS (headNonWS_dropWhile (l.dropWhile isWS).reverse)]
  rfl

theorem normL_idem (l : List Char) :
    trimWS (replaceWSRuns ' ' (trimWS (replaceWSRuns ' ' l)))
      = trimWS (replaceWSRuns ' ' l) := by
  have hchars : ∀ c ∈ trimWS (replaceWSRuns ' ' l), isWS c = false ∨ c = ' ' := by
    intro c hc
    rcases mem_replaceWSRunsAux (mem_trimWS hc) with h2 | ⟨-, h3⟩
    · exact Or.inr h2
    · exact Or.inl h3
  have hcoll : replaceWSRuns ' ' (trimWS (replaceWSRuns ' ' l))
      = trimWS (replaceWSRuns ' ' l) :=
    aux_eq_self _ false hchars (noAdjWS_trimWS (noAdjWS_aux l false))
      (fun hb => by simp at hb)
  rw [hcoll, trimWS_idem]

theorem normWS_idem (s : String) : normWS (normWS s) = normWS s := by
  unfold normWS
  exact congrArg String.mk (normL_idem s.toList)

theorem cleanStr_normWS {s : String} (h : cleanStr s = true) :
    cleanStr (normWS s) = true := by
  unfold cleanStr at h ⊢
  rw [List.all_eq_true] at h ⊢
  intro c hc
  have hc2 : c ∈ trimWS (replaceWSRuns ' ' s.toList) := hc
  rcases mem_replaceWSRunsAux (mem_trimWS hc2) with h2 | ⟨h3, -⟩
  · subst h2; decide
  · exact h c h3

/-- C8: `cleanText` is idempotent on clean ASCII text (no tags, no entities),
provided the black-box HTML parser acts as the identity on such text; and it
returns the empty string on a null or empty input. -/
theorem cleanText_idempotent (parse : String → Option String)
    (hparse : ∀ s, cleanStr s = true → parse s = some s)
    (x : String) (hx : cleanStr x = true) :
    cleanText parse (some (cleanText parse (some x))) = cleanText parse (some x) ∧
    cleanText parse none = "" ∧ cleanText parse (some "") = "" := by
  refine ⟨?_, rfl, rfl⟩
  by_cases hx0 : x = ""
  · subst hx0; rfl
  · have hinner : cleanText parse (some x) = normWS x := by
      simp only [cleanText]
      rw [if_neg hx0, hparse x hx]
    rw [hinner]
    by_cases hn0 : normWS x = ""
    · rw [hn0]; rfl
    · have hcn : cleanStr (normWS x) = true := cleanStr_normWS hx
      simp only [cleanText]
      rw [if_neg hn0, hparse _ hcn]
      exact normWS_idem x

/-- Witness for C8 with the identity parser and a concrete untidy input. -/
theorem cleanText_idempotent_witness :
    cleanText (fun s => some s) (some (cleanText (fun s => some s) (some "ab  cd "))) =
      cleanText (fun s => some s) (some "ab  cd ") ∧
    cleanText (fun s => some s) none = "" ∧
    cleanText (fun s => some s) (some "") = "" :=
  cleanText_idempotent (fun s => some s) (fun _ _ => rfl) "ab  cd " (by decide)

end FusionAsk
